import Mathlib

/-!
Shallow embedding of the `sheriff` runtime schema-validation library
(`src/index.ts`) and verification of its specification claims.

The embedding models:
  * JavaScript runtime values (`JSValue`), with `typeof` tags, template-string
    rendering, and an explicit model of the prototype situation of object
    values (`ProtoStatus`);
  * marshaller descriptors (`Marshaller`), one constructor per `kind` tag of
    the source's `Marshaller<T>` union;
  * the `MarshalError` data (`MarshalErrorData`) with the message computed at
    construction time exactly as in the `MarshalError` constructor;
  * the recursive validator `marshal`, translated case by case from the
    `switch` in `src/index.ts`, together with the helper loops
    (`marshalFields`, `marshalElems`, `marshalTuple`, `marshalRecordEntries`,
    `runUnion`) that mirror the source's `for`/`forEach`/`some` iterations.

Modelling notes, each tied to the JavaScript semantics of the source:
  * `ProtoStatus.plain` is an ordinary object whose prototype is
    `Object.prototype` (so `"__proto__" in obj` is true via the inherited
    accessor and `obj.__proto__ === Object.prototype` holds);
    `ProtoStatus.noProto` is an object with no `__proto__` property anywhere
    (e.g. created with a null prototype); `ProtoStatus.polluted` is an object
    whose (own or inherited) `__proto__` resolves to something different from
    `Object.prototype` (e.g. an own `__proto__` key produced by parsing
    untrusted JSON).  Arrays always have `__proto__ === Array.prototype`,
    which the source detects with `Array.isArray` before reporting pollution.
  * the `in` operator on a schema's `fields` object literal consults the
    prototype chain, so besides the declared keys it also finds the built-in
    properties of `Object.prototype`; `objectPrototypeKeys` lists them.
    `Object.keys` and `for..in` see only own enumerable keys and are modelled
    by association-list lookup; a property read `obj[key]` also consults the
    prototype chain, so on a plain object a missing key that names an
    `Object.prototype` member reads the inherited value (`jsGetProp`,
    `protoPropValue`): a built-in function (`JSValue.jsfunc`), or, for the
    `__proto__` accessor, `Object.prototype` itself.
  * JavaScript numbers are modelled as integers; no claim depends on
    floating-point behaviour.
  * `Array.prototype.sort` is stable (ECMAScript 2019), so sorting the field
    keys with the comparator `getUnionOrder(m1) - getUnionOrder(m2)` is a
    stable sort by weight; `sortFields` implements it as a stable insertion
    sort on the (key, marshaller) pairs, which keeps each key paired with the
    marshaller the source would look up after sorting.
  * the `recursive` variant is represented with an inner descriptor (the
    back-patched self reference); cyclic descriptor graphs themselves are not
    representable in an inductive type, and no claim needs them.
  * a custom validator function is modelled as a total function returning
    either a value (`CustomResult.ret`, where returning `undefined` is the
    success sentinel) or a thrown error carrying the `.message` string the
    source reads from it (`CustomResult.throws`).
-/

/-- A path step inside a validated object: a string key or a numeric index. -/
inductive PathStep where
  | field (s : String)
  | index (n : Nat)
deriving DecidableEq, Repr

/-- Translation of `pathStringify`: fold the path onto the root name,
rendering string steps as `.field` and numeric steps as `[index]`. -/
def pathStringify (name : String) (path : List PathStep) : String :=
  path.foldl
    (fun agg next =>
      match next with
      | .field s => agg ++ "." ++ s
      | .index n => agg ++ "[" ++ toString n ++ "]")
    name

/-- The data carried by a `MarshalError`: root name, path, info, rule, and
the message assembled by the constructor. -/
structure MarshalErrorData where
  name : String
  path : List PathStep
  info : String
  rule : String
  message : String
deriving DecidableEq, Repr

/-- Translation of the `MarshalError` constructor: the message is
`[At <pathStringify name path>]: <info>`. -/
def mkMarshalError (name : String) (path : List PathStep) (info : String) (rule : String) :
    MarshalErrorData :=
  { name := name, path := path, info := info, rule := rule,
    message := "[At " ++ pathStringify name path ++ "]: " ++ info }

/-- The prototype situation of a non-array JavaScript object value. -/
inductive ProtoStatus where
  | plain
  | noProto
  | polluted
deriving DecidableEq, Repr

/-- A JavaScript runtime value, as far as the validator can observe it.
`jsfunc name` is a built-in function value (such as an inherited
`Object.prototype` member reached through the prototype chain): `typeof` is
`"function"`, it has no enumerable own properties, and it is strictly equal
to no primitive. -/
inductive JSValue where
  | undef
  | null
  | bool (b : Bool)
  | num (n : Int)
  | str (s : String)
  | arr (elems : List JSValue)
  | obj (fields : List (String × JSValue)) (proto : ProtoStatus)
  | jsfunc (name : String)

/-- Strict comparison `v === null`. -/
def isJSNull : JSValue → Bool
  | .null => true
  | _ => false

/-- Strict comparison `v === undefined`. -/
def isJSUndef : JSValue → Bool
  | .undef => true
  | _ => false

/-- The result of calling a custom validation function on a value: it either
returns a value (`undefined` being the success sentinel) or throws an error
whose `.message` the source reads. -/
inductive CustomResult where
  | ret (v : JSValue)
  | throws (message : String)

/-- Translation of the `typeof` operator on the modelled values. -/
def jsTypeof : JSValue → String
  | .undef => "undefined"
  | .null => "object"
  | .bool _ => "boolean"
  | .num _ => "number"
  | .str _ => "string"
  | .arr _ => "object"
  | .obj _ _ => "object"
  | .jsfunc _ => "function"

mutual

/-- Template-string rendering of a JavaScript value (`` `${obj}` ``):
`String(v)`.  Arrays join their elements with commas, rendering `null` and
`undefined` elements as empty strings; plain objects render as
`[object Object]`. -/
def jsToString : JSValue → String
  | .undef => "undefined"
  | .null => "null"
  | .bool b => if b then "true" else "false"
  | .num n => toString n
  | .str s => s
  | .arr elems => jsElemsToString elems
  | .obj _ _ => "[object Object]"
  | .jsfunc fname => "function " ++ fname ++ "() \x7b [native code] \x7d"

def jsElemsToString : List JSValue → String
  | [] => ""
  | [x] => jsArrayElemToString x
  | x :: xs => jsArrayElemToString x ++ "," ++ jsElemsToString xs

def jsArrayElemToString : JSValue → String
  | .undef => ""
  | .null => ""
  | v => jsToString v

end

/-- A primitive value usable as a `literal` marshaller payload
(string/number/boolean/null/undefined, per `M.lit`). -/
inductive Prim where
  | undef
  | null
  | bool (b : Bool)
  | num (n : Int)
  | str (s : String)
deriving DecidableEq, Repr

/-- Strict equality (`===`) between a runtime value and a literal payload. -/
def primEq : JSValue → Prim → Bool
  | .undef, .undef => true
  | .null, .null => true
  | .bool a, .bool b => a == b
  | .num a, .num b => a == b
  | .str a, .str b => a == b
  | _, _ => false

/-- Template-string rendering of a literal payload. -/
def primToString : Prim → String
  | .undef => "undefined"
  | .null => "null"
  | .bool b => if b then "true" else "false"
  | .num n => toString n
  | .str s => s

/-- Rendering of a literal payload as an element of `Array.prototype.join`
(which renders `null` and `undefined` as empty strings). -/
def primJoinString : Prim → String
  | .undef => ""
  | .null => ""
  | p => primToString p

/-- The marshaller descriptor type, one constructor per `kind` tag of the
source's `Marshaller<T>` union.  Object fields are kept in insertion order,
as `Object.keys` reports them for string keys. -/
inductive Marshaller where
  | literal (value : Prim)
  | boolean
  | number
  | string
  | optional (type : Marshaller)
  | object (fields : List (String × Marshaller))
  | array (type : Marshaller)
  | tuple (fields : List Marshaller)
  | union (types : List Marshaller)
  | recursive (self : Marshaller)
  | any
  | unknown
  | custom (type : Marshaller) (fn : JSValue → CustomResult)
  | record (type : Marshaller)
  | witness (type : Marshaller)

/-- The `kind` tag of a descriptor, used as the `rule` of raised errors and
in the generic union message. -/
def marshallerKind : Marshaller → String
  | .literal _ => "literal"
  | .boolean => "boolean"
  | .number => "number"
  | .string => "string"
  | .optional _ => "optional"
  | .object _ => "object"
  | .array _ => "array"
  | .tuple _ => "tuple"
  | .union _ => "union"
  | .recursive _ => "recursive"
  | .any => "any"
  | .unknown => "unknown"
  | .custom _ _ => "custom"
  | .record _ => "record"
  | .witness _ => "witness"

/-- Translation of `getUnionOrder`: weight `1` for a non-literal field
schema, `-1` for a literal whose payload is the string `"kind"` (note: the
source compares the literal's value, `m.value === "kind"`, not the field
name), and `0` for any other literal. -/
def getUnionOrder (m : Marshaller) : Int :=
  match m with
  | .literal v => if v = .str "kind" then -1 else 0
  | _ => 1

/-- Stable insertion of a (key, marshaller) pair into a list sorted by
`getUnionOrder` weight: the pair goes after every strictly lighter entry and
before any entry of equal weight that originated later in insertion order. -/
def insertByWeight (x : String × Marshaller) :
    List (String × Marshaller) → List (String × Marshaller)
  | [] => [x]
  | y :: ys =>
    if getUnionOrder y.2 < getUnionOrder x.2 then y :: insertByWeight x ys
    else x :: y :: ys

/-- Translation of the key sort in the object case:
`Object.keys(description.fields).sort((k1, k2) => getUnionOrder(m1) - getUnionOrder(m2))`.
`Array.prototype.sort` is stable, so this is a stable sort by weight; each
key stays paired with the marshaller the source looks up for it. -/
def sortFields (l : List (String × Marshaller)) : List (String × Marshaller) :=
  match l with
  | [] => []
  | x :: xs => insertByWeight x (sortFields xs)

/-- Size invariant of the stable insertion: inserting a pair adds exactly its
own size.  Stated as a definition so the termination measure of the validator
below can reference it. -/
def insertByWeight_sizeOf_eq : ∀ (x : String × Marshaller) (l : List (String × Marshaller)),
    sizeOf (insertByWeight x l) = 1 + sizeOf x + sizeOf l := by
  intro x l
  induction l with
  | nil => simp [insertByWeight]
  | cons y ys ih =>
    simp only [insertByWeight]
    split <;> simp_arith [ih]

/-- Size invariant of the field sort: sorting preserves the size, so the
sorted field list is strictly smaller than the object descriptor holding it
(used by the validator's termination measure). -/
def sortFields_sizeOf_eq : ∀ (l : List (String × Marshaller)),
    sizeOf (sortFields l) = sizeOf l := by
  intro l
  induction l with
  | nil => simp [sortFields]
  | cons y ys ih => simp_arith [sortFields, insertByWeight_sizeOf_eq, ih]

/-- The enumerable own properties of an object value (what `for..in` and
`Object.keys` iterate for a plain or null-prototype object), in insertion
order. -/
def jsOwnFields : JSValue → List (String × JSValue)
  | .obj fields _ => fields
  | _ => []

/-- Translation of `Array.isArray`. -/
def isJSArray : JSValue → Bool
  | .arr _ => true
  | _ => false

/-- Translation of `"__proto__" in obj && obj.__proto__ !== Object.prototype`
for values that already passed the `typeof`/null checks.  Arrays satisfy it
because they inherit `__proto__ === Array.prototype`; a plain object's
inherited `__proto__` is `Object.prototype`, and a null-prototype object has
no `__proto__` at all, so only `polluted` objects (and arrays) satisfy it. -/
def protoSuspect : JSValue → Bool
  | .arr _ => true
  | .obj _ proto => proto == .polluted
  | _ => false

/-- The property names every plain object inherits from `Object.prototype`,
visible to the `in` operator (but not to `Object.keys` or `for..in`). -/
def objectPrototypeKeys : List String :=
  ["constructor", "hasOwnProperty", "isPrototypeOf", "propertyIsEnumerable",
   "toLocaleString", "toString", "valueOf",
   "__defineGetter__", "__defineSetter__", "__lookupGetter__", "__lookupSetter__",
   "__proto__"]

/-- The value a read of `key` yields through the prototype chain of a plain
object when `key` is not an own property: every `Object.prototype` member is
a built-in function, except the `__proto__` accessor, which yields
`Object.prototype` itself — an object with no enumerable own properties on
which the source's `__proto__` check fires (because
`Object.prototype.__proto__` is `null`, not `Object.prototype`). -/
def protoPropValue (key : String) : JSValue :=
  if !(objectPrototypeKeys.contains key) then .undef
  else if key == "__proto__" then .obj [] .polluted
  else .jsfunc key

/-- Property read `v[key]`: the first own binding of `key`; when no own
binding exists, JavaScript consults the prototype chain, so a plain object
yields the inherited `Object.prototype` member and every other modelled
value yields `undefined`.  (A null-prototype object has no chain; the
validator never reads fields of arrays or polluted objects, which the
object and record cases reject before any field read, and `"kind"`, the
only key the union heuristic reads, is guarded by an own-property check.) -/
def jsGetProp (v : JSValue) (key : String) : JSValue :=
  match (jsOwnFields v).find? (fun p => p.1 == key), v with
  | none, .obj _ .plain => protoPropValue key
  | none, _ => .undef
  | some p, _ => p.2

/-- Translation of `key in description.fields` in the excess-key loop: the
schema's `fields` value is an object literal, so the `in` operator sees the
declared keys and everything inherited from `Object.prototype`. -/
def inFields (key : String) (flds : List (String × Marshaller)) : Bool :=
  flds.any (fun p => p.1 == key) || objectPrototypeKeys.contains key

/-- Translation of the excess-key loop
`for (key in obj) if (!(key in description.fields)) ...`: the first own key
of the value that the `in` operator cannot find on the fields object. -/
def excessKey (flds : List (String × Marshaller)) :
    List (String × JSValue) → Option String
  | [] => none
  | (k, _) :: rest =>
    if !(inFields k flds) then some k else excessKey flds rest

/-- Translation of `"kind" in obj` for a value known to satisfy
`typeof obj === "object" && obj !== null`: `"kind"` is not a property of
`Object.prototype` or `Array.prototype`, so only an own `kind` key counts. -/
def hasKindProp (v : JSValue) : Bool :=
  (jsOwnFields v).any (fun p => p.1 == "kind")

/-- Translation of the discriminator collection loop: the literal payloads of
`kind` fields of object alternatives (`type.kind === "object" &&
"kind" in type.fields && type.fields.kind.kind === "literal"`). -/
def discriminatorValues (types : List Marshaller) : List Prim :=
  types.filterMap
    (fun t =>
      match t with
      | .object flds =>
        match flds.find? (fun p => p.1 == "kind") with
        | some p =>
          match p.2 with
          | .literal v => some v
          | _ => none
        | none => none
      | _ => none)

/-- Translation of the re-raise condition in the discriminated-union loop:
`err.rule !== "literal" || err.path.length !== path.length + 1`. -/
def rethrowCondition (path : List PathStep) (err : MarshalErrorData) : Bool :=
  err.rule != "literal" || err.path.length != path.length + 1

/-- Exceptions observable from a `marshal` call: a structured `MarshalError`
or any other thrown value (`e instanceof MarshalError` distinguishes them in
the union case). -/
inductive JSException where
  | merr (e : MarshalErrorData)
  | other (s : String)
deriving DecidableEq, Repr

/-- Outcome of running the union's `some` loop over the alternatives:
a success, the collected structured branch failures in declared order, or a
non-structured exception that aborted the loop. -/
inductive UnionOutcome where
  | success
  | collected (errs : List MarshalErrorData)
  | aborted (s : String)
deriving DecidableEq, Repr

/-- Translation of the union disambiguation heuristic (the code after the
`some` loop, given that every alternative failed and `errors` holds the
collected structured failures in declared order). -/
def unionDiagnose (obj : JSValue) (name : String) (path : List PathStep)
    (types : List Marshaller) (errs : List MarshalErrorData) :
    Except JSException Unit :=
  let dvals := discriminatorValues types
  if dvals.length != 0 then
    match errs.find? (rethrowCondition path) with
    | some err => .error (.merr err)
    | none =>
      if jsTypeof obj == "object" && !(isJSNull obj) && hasKindProp obj then
        .error (.merr (mkMarshalError name path
          ("Unable to match against union."
            ++ " Found \"kind\" discriminator: [" ++ jsToString (jsGetProp obj "kind")
            ++ "], but needed one of ["
            ++ String.intercalate " | " (dvals.map primJoinString) ++ "]")
          "union"))
      else
        .error (.merr (mkMarshalError name path
          ("Unable to find \"kind\" discriminator. Expecting one of ["
            ++ String.intercalate " | " (dvals.map primJoinString) ++ "]")
          "union"))
  else
    .error (.merr (mkMarshalError name path
      ("Unable to match against union. Expected one of ["
        ++ String.intercalate " | " (types.map marshallerKind) ++ "]")
      "union"))

mutual

/-- Translation of `marshal(obj, description, name, path)` from
`src/index.ts`, case by case over the descriptor's `kind` tag.  Throwing is
modelled by `Except.error`; `fail(message)` is
`.error (.merr (mkMarshalError name path message description.kind))`. -/
def marshal (obj : JSValue) (description : Marshaller) (name : String)
    (path : List PathStep) : Except JSException Unit :=
  match description with
  | .literal value =>
    if primEq obj value then .ok ()
    else .error (.merr (mkMarshalError name path
      ("Expected constant value " ++ primToString value ++ ", got " ++ jsToString obj)
      "literal"))
  | .boolean =>
    if jsTypeof obj == "boolean" then .ok ()
    else .error (.merr (mkMarshalError name path
      ("Expected boolean, got " ++ jsTypeof obj) "boolean"))
  | .number =>
    if jsTypeof obj == "number" then .ok ()
    else .error (.merr (mkMarshalError name path
      ("Expected number, got " ++ jsTypeof obj) "number"))
  | .string =>
    if jsTypeof obj == "string" then .ok ()
    else .error (.merr (mkMarshalError name path
      ("Expected string, got " ++ jsTypeof obj) "string"))
  | .optional type =>
    match obj with
    | .undef => .ok ()
    | _ => marshal obj type name path
  | .object flds =>
    if jsTypeof obj != "object" then
      .error (.merr (mkMarshalError name path
        ("Expected object, got " ++ jsTypeof obj) "object"))
    else if isJSNull obj then
      .error (.merr (mkMarshalError name path "Expected object, got null" "object"))
    else if protoSuspect obj then
      if isJSArray obj then
        .error (.merr (mkMarshalError name path "Expected object, got array" "object"))
      else
        .error (.merr (mkMarshalError name path "Encountered prototype pollution" "object"))
    else
      match marshalFields obj name path (sortFields flds) with
      | .error e => .error e
      | .ok _ =>
        match excessKey flds (jsOwnFields obj) with
        | some k =>
          .error (.merr (mkMarshalError name path
            ("Found unexpected key: " ++ k) "object"))
        | none => .ok ()
  | .array type =>
    match obj with
    | .arr elems => marshalElems type name path 0 elems
    | _ =>
      .error (.merr (mkMarshalError name path
        ("Expected array, got " ++ jsTypeof obj) "array"))
  | .tuple tfields =>
    match obj with
    | .arr elems =>
      if elems.length == tfields.length then
        marshalTuple name path 0 elems tfields
      else
        .error (.merr (mkMarshalError name path
          ("Invalid tuple size: Expected " ++ toString tfields.length
            ++ ", got " ++ toString elems.length) "tuple"))
    | _ =>
      .error (.merr (mkMarshalError name path
        ("Expected tuple, got " ++ jsTypeof obj) "tuple"))
  | .union types =>
    match runUnion obj name path types with
    | .success => .ok ()
    | .aborted s => .error (.other s)
    | .collected errs => unionDiagnose obj name path types errs
  | .recursive self => marshal obj self name path
  | .any => .ok ()
  | .unknown => .ok ()
  | .custom type fn =>
    match marshal obj type name path with
    | .error e => .error e
    | .ok _ =>
      match fn obj with
      | .ret r =>
        if !(isJSUndef r) then
          .error (.merr (mkMarshalError name path
            (mkMarshalError name path
              "Custom validation function unexpectedly returned a value" "custom").message
            "custom"))
        else .ok ()
      | .throws msg => .error (.merr (mkMarshalError name path msg "custom"))
  | .record type =>
    if jsTypeof obj != "object" then
      .error (.merr (mkMarshalError name path
        ("Expected object, got " ++ jsTypeof obj) "record"))
    else if isJSNull obj then
      .error (.merr (mkMarshalError name path "Expected object, got null" "record"))
    else if protoSuspect obj then
      if isJSArray obj then
        .error (.merr (mkMarshalError name path "Expected object, got array" "record"))
      else
        .error (.merr (mkMarshalError name path "Encountered prototype pollution" "record"))
    else
      marshalRecordEntries type name path (jsOwnFields obj)
  | .witness type => marshal obj type name path
termination_by (sizeOf description, 0)
decreasing_by
  all_goals simp_wf
  all_goals try rw [sortFields_sizeOf_eq]
  all_goals
    first
      | (apply Prod.Lex.left; omega)
      | (apply Prod.Lex.right; omega)
      | omega

/-- Translation of the declared-field loop of the object case: for each
(sorted) key, validate `obj[key]` against its field marshaller at
`path.concat([key])`, stopping at the first thrown error. -/
def marshalFields (obj : JSValue) (name : String) (path : List PathStep) :
    List (String × Marshaller) → Except JSException Unit
  | [] => .ok ()
  | (key, m) :: rest =>
    match marshal (jsGetProp obj key) m name (path ++ [.field key]) with
    | .error e => .error e
    | .ok _ => marshalFields obj name path rest
termination_by l => (sizeOf l, 0)
decreasing_by
  all_goals simp_wf
  all_goals
    first
      | (apply Prod.Lex.left; omega)
      | (apply Prod.Lex.right; omega)
      | omega

/-- Translation of the array case's `forEach`: validate each element against
the element marshaller at `path.concat([idx])`; a thrown error propagates
out of the iteration. -/
def marshalElems (type : Marshaller) (name : String) (path : List PathStep)
    (idx : Nat) : List JSValue → Except JSException Unit
  | [] => .ok ()
  | e :: rest =>
    match marshal e type name (path ++ [.index idx]) with
    | .error err => .error err
    | .ok _ => marshalElems type name path (idx + 1) rest
termination_by l => (sizeOf type, sizeOf l)
decreasing_by
  all_goals simp_wf
  all_goals
    first
      | (apply Prod.Lex.left; omega)
      | (apply Prod.Lex.right; omega)
      | omega

/-- Translation of the tuple case's `forEach`: validate element `i` against
field marshaller `i` (the lengths are equal when this runs). -/
def marshalTuple (name : String) (path : List PathStep) (idx : Nat) :
    List JSValue → List Marshaller → Except JSException Unit
  | [], _ => .ok ()
  | _, [] => .ok ()
  | e :: erest, m :: mrest =>
    match marshal e m name (path ++ [.index idx]) with
    | .error err => .error err
    | .ok _ => marshalTuple name path (idx + 1) erest mrest
termination_by l ms => (sizeOf ms, 0)
decreasing_by
  all_goals simp_wf
  all_goals
    first
      | (apply Prod.Lex.left; omega)
      | (apply Prod.Lex.right; omega)
      | omega

/-- Translation of the record case's `Object.keys(obj).forEach`: validate
each own value against the shared marshaller at `path.concat([key])`. -/
def marshalRecordEntries (type : Marshaller) (name : String) (path : List PathStep) :
    List (String × JSValue) → Except JSException Unit
  | [] => .ok ()
  | (k, v) :: rest =>
    match marshal v type name (path ++ [.field k]) with
    | .error err => .error err
    | .ok _ => marshalRecordEntries type name path rest
termination_by l => (sizeOf type, sizeOf l)
decreasing_by
  all_goals simp_wf
  all_goals
    first
      | (apply Prod.Lex.left; omega)
      | (apply Prod.Lex.right; omega)
      | omega

/-- Translation of the union case's `some` loop with its `try`/`catch`:
attempt the alternatives in declared order; the first success wins,
structured errors are collected in order, any other exception aborts. -/
def runUnion (obj : JSValue) (name : String) (path : List PathStep) :
    List Marshaller → UnionOutcome
  | [] => .collected []
  | t :: rest =>
    match marshal obj t name path with
    | .ok _ => .success
    | .error (.merr e) =>
      match runUnion obj name path rest with
      | .collected es => .collected (e :: es)
      | o => o
    | .error (.other s) => .aborted s
termination_by l => (sizeOf l, 0)
decreasing_by
  all_goals simp_wf
  all_goals
    first
      | (apply Prod.Lex.left; omega)
      | (apply Prod.Lex.right; omega)
      | omega

end

/-- A `MarshalError` is consistent when its `message` field is the one the
`MarshalError` constructor computes from its `name`, `path` and `info`
fields. -/
def ErrConsistent (e : MarshalErrorData) : Prop :=
  e.message = "[At " ++ pathStringify e.name e.path ++ "]: " ++ e.info

/-- A validation outcome is structured when it is a success or a consistent
structured error — never a non-`MarshalError` exception. -/
def StructuredOk (r : Except JSException Unit) : Prop :=
  r = .ok () ∨ ∃ e, r = .error (.merr e) ∧ ErrConsistent e

/-- A union-loop outcome is structured when it is a success or a list of
consistent collected errors — never an abort by a non-`MarshalError`. -/
def UnionStructured (o : UnionOutcome) : Prop :=
  o = .success ∨ ∃ errs, o = .collected errs ∧ ∀ e ∈ errs, ErrConsistent e

/-- Rendering of one path step as it appears in `pathStringify`. -/
def renderStep : PathStep → String
  | .field s => "." ++ s
  | .index n => "[" ++ toString n ++ "]"

/-- Rendering of a whole path: each step rendered with `renderStep`,
concatenated in order. -/
def renderPathSteps : List PathStep → String
  | [] => ""
  | s :: rest => renderStep s ++ renderPathSteps rest

theorem mkMarshalError_consistent (name : String) (path : List PathStep)
    (info rule : String) : ErrConsistent (mkMarshalError name path info rule) := rfl

theorem pathStringify_cons (name : String) (s : PathStep) (rest : List PathStep) :
    pathStringify name (s :: rest) = pathStringify (name ++ renderStep s) rest := by
  cases s <;> simp [pathStringify, renderStep, String.append_assoc]

theorem pathStringify_eq_append (name : String) (path : List PathStep) :
    pathStringify name path = name ++ renderPathSteps path := by
  induction path generalizing name with
  | nil => simp [pathStringify, renderPathSteps]
  | cons s rest ih =>
    rw [pathStringify_cons, ih, renderPathSteps, String.append_assoc]

/-- C2: for every object or record schema, a value whose own `__proto__`
differs from the plain base-object prototype (modelled by
`ProtoStatus.polluted`) fails with info exactly
`"Encountered prototype pollution"` and rule `"object"`/`"record"`, before
any field-level check and regardless of the value's fields. -/
theorem prototype_pollution_rejected
    (flds : List (String × Marshaller)) (t : Marshaller)
    (vf : List (String × JSValue)) (name : String) (path : List PathStep) :
    marshal (.obj vf .polluted) (.object flds) name path =
      .error (.merr (mkMarshalError name path "Encountered prototype pollution" "object"))
    ∧ marshal (.obj vf .polluted) (.record t) name path =
      .error (.merr (mkMarshalError name path "Encountered prototype pollution" "record")) := by
  constructor <;> simp [marshal, jsTypeof, isJSNull, protoSuspect, isJSArray]

/-- C9: a non-null, non-array object with no `__proto__` property anywhere
(modelled by `ProtoStatus.noProto`, e.g. a null-prototype object) passes the
prototype-pollution check of both the object and the record case: its
validation outcome is decided purely by the field checks (declared-field
loop plus excess-key scan for `object`, per-entry loop for `record`). -/
theorem noproto_object_accepted
    (flds : List (String × Marshaller)) (t : Marshaller)
    (vf : List (String × JSValue)) (name : String) (path : List PathStep) :
    (marshal (.obj vf .noProto) (.object flds) name path = .ok ()
      ↔ marshalFields (.obj vf .noProto) name path (sortFields flds) = .ok ()
        ∧ excessKey flds vf = none)
    ∧ marshal (.obj vf .noProto) (.record t) name path
        = marshalRecordEntries t name path vf := by
  constructor
  · cases h : marshalFields (.obj vf .noProto) name path (sortFields flds) with
    | error e =>
      simp [marshal, jsTypeof, isJSNull, protoSuspect, isJSArray, jsOwnFields, h]
    | ok u =>
      cases h2 : excessKey flds vf <;>
        simp [marshal, jsTypeof, isJSNull, protoSuspect, isJSArray, jsOwnFields, h, h2]
  · simp [marshal, jsTypeof, isJSNull, protoSuspect, isJSArray, jsOwnFields]

/-- C8: validation is a pure function of the (value, schema, name, path)
arguments — re-validating the same value against the same schema after a
first validation gives exactly the first outcome, so a successful call
stays successful on repetition and no call mutates value or schema. -/
theorem marshal_revalidation_idempotent
    (d : Marshaller) (v : JSValue) (name : String) (path : List PathStep) :
    (marshal v d name path >>= fun _ => marshal v d name path)
      = marshal v d name path := by
  cases h : marshal v d name path <;> rfl

/-- Evaluation rule: the declared-field loop accepts an empty field list. -/
theorem marshalFields_nil_eq (obj : JSValue) (name : String) (path : List PathStep) :
    marshalFields obj name path [] = .ok () := by
  simp [marshalFields]

/-- Evaluation rule: the declared-field loop propagates a failing head
field's error. -/
theorem marshalFields_cons_error {obj : JSValue} {name : String} {path : List PathStep}
    {key : String} {m : Marshaller} {rest : List (String × Marshaller)} {e : JSException}
    (h : marshal (jsGetProp obj key) m name (path ++ [.field key]) = .error e) :
    marshalFields obj name path ((key, m) :: rest) = .error e := by
  simp only [marshalFields, h]

/-- Evaluation rule: the declared-field loop steps over a passing head
field. -/
theorem marshalFields_cons_ok {obj : JSValue} {name : String} {path : List PathStep}
    {key : String} {m : Marshaller} {rest : List (String × Marshaller)}
    (h : marshal (jsGetProp obj key) m name (path ++ [.field key]) = .ok ()) :
    marshalFields obj name path ((key, m) :: rest) = marshalFields obj name path rest := by
  simp only [marshalFields, h]

/-- Evaluation rule: on a plain (non-null, non-array, unpolluted) object
value, a failing sorted field loop makes the object case fail with that
error. -/
theorem marshal_object_plain_error {vf : List (String × JSValue)}
    {flds : List (String × Marshaller)} {name : String} {path : List PathStep}
    {e : JSException}
    (h : marshalFields (.obj vf .plain) name path (sortFields flds) = .error e) :
    marshal (.obj vf .plain) (.object flds) name path = .error e := by
  simp only [marshal, jsTypeof, isJSNull, protoSuspect, isJSArray, h]
  simp

/-- Evaluation rule: on a plain (non-null, non-array, unpolluted) object
value, a passing sorted field loop followed by a clean excess-key scan makes
the object case succeed. -/
theorem marshal_object_plain_ok {vf : List (String × JSValue)}
    {flds : List (String × Marshaller)} {name : String} {path : List PathStep}
    (h : marshalFields (.obj vf .plain) name path (sortFields flds) = .ok ())
    (h2 : excessKey flds vf = none) :
    marshal (.obj vf .plain) (.object flds) name path = .ok () := by
  simp only [marshal, jsTypeof, isJSNull, protoSuspect, isJSArray, jsOwnFields, h, h2]
  simp

/-- Evaluation rule: the union loop over no alternatives collects nothing. -/
theorem runUnion_nil_eq (obj : JSValue) (name : String) (path : List PathStep) :
    runUnion obj name path [] = .collected [] := by
  simp [runUnion]

/-- Evaluation rule: a structured head failure is collected in front of the
failures of the remaining alternatives. -/
theorem runUnion_cons_merr {obj : JSValue} {name : String} {path : List PathStep}
    {t : Marshaller} {rest : List Marshaller} {e : MarshalErrorData}
    {es : List MarshalErrorData}
    (h : marshal obj t name path = .error (.merr e))
    (h2 : runUnion obj name path rest = .collected es) :
    runUnion obj name path (t :: rest) = .collected (e :: es) := by
  simp only [runUnion, h, h2]

/-- Evaluation rule: when every alternative failed structurally, the union
case defers to the disambiguation heuristic on the collected errors. -/
theorem marshal_union_collected_eq {obj : JSValue} {name : String} {path : List PathStep}
    {types : List Marshaller} {errs : List MarshalErrorData}
    (h : runUnion obj name path types = .collected errs) :
    marshal obj (.union types) name path = unionDiagnose obj name path types errs := by
  simp only [marshal, h]

/-- Concrete evaluation, shared by the union theorems: the object
alternative `{kind: literal "foo"}` rejects the value `{kind: "bar"}` with a
literal mismatch one step deep. -/
theorem obj_kind_bar_fails :
    marshal (.obj [("kind", .str "bar")] .plain)
        (.object [("kind", .literal (.str "foo"))]) "INPUT" []
      = .error (.merr (mkMarshalError "INPUT" [.field "kind"]
          "Expected constant value foo, got bar" "literal")) := by
  have hs : sortFields [("kind", Marshaller.literal (.str "foo"))]
      = [("kind", Marshaller.literal (.str "foo"))] := by
    simp [sortFields, insertByWeight]
  have h1 : marshal (jsGetProp (.obj [("kind", .str "bar")] .plain) "kind")
        (Marshaller.literal (.str "foo")) "INPUT" (([] : List PathStep) ++ [.field "kind"])
      = .error (.merr (mkMarshalError "INPUT" [.field "kind"]
          "Expected constant value foo, got bar" "literal")) := by
    simp [jsGetProp, jsOwnFields, marshal, primEq, primToString, jsToString]
    try rfl
  apply marshal_object_plain_error
  rw [hs]
  exact marshalFields_cons_error h1

/-- C6 (evaluation at the failing input): an excess key named `toString`
(or any other `Object.prototype` property name) is silently accepted,
because the excess-key loop tests membership with the `in` operator, which
finds `toString` on the prototype chain of the schema's `fields` object —
while an ordinary excess key `b` is rejected as documented. -/
theorem excess_prototype_key_accepted :
    marshal (.obj [("a", .num 1), ("toString", .num 5)] .plain)
        (.object [("a", .number)]) "INPUT" [] = .ok ()
    ∧ marshal (.obj [("a", .num 1), ("b", .num 5)] .plain)
        (.object [("a", .number)]) "INPUT" []
      = .error (.merr (mkMarshalError "INPUT" [] "Found unexpected key: b" "object")) := by
  constructor <;>
    simp [marshal, jsTypeof, isJSNull, protoSuspect, isJSArray, sortFields, insertByWeight,
      getUnionOrder, marshalFields, jsGetProp, jsOwnFields, excessKey, inFields,
      objectPrototypeKeys]

theorem getUnionOrder_mem (m : Marshaller) :
    getUnionOrder m = -1 ∨ getUnionOrder m = 0 ∨ getUnionOrder m = 1 := by
  cases m <;> simp only [getUnionOrder] <;> first | (split <;> simp) | simp

theorem getUnionOrder_ge (m : Marshaller) : -1 ≤ getUnionOrder m := by
  rcases getUnionOrder_mem m with h | h | h <;> omega

theorem getUnionOrder_le (m : Marshaller) : getUnionOrder m ≤ 1 := by
  rcases getUnionOrder_mem m with h | h | h <;> omega

theorem insertByWeight_eq_cons (x : String × Marshaller) (l : List (String × Marshaller))
    (h : ∀ y ∈ l, ¬(getUnionOrder y.2 < getUnionOrder x.2)) :
    insertByWeight x l = x :: l := by
  cases l with
  | nil => rfl
  | cons y ys =>
    simp only [insertByWeight]
    rw [if_neg (h y (by simp))]

theorem insertByWeight_append (x : String × Marshaller) (l₁ l₂ : List (String × Marshaller))
    (h : ∀ y ∈ l₁, getUnionOrder y.2 < getUnionOrder x.2) :
    insertByWeight x (l₁ ++ l₂) = l₁ ++ insertByWeight x l₂ := by
  induction l₁ with
  | nil => simp
  | cons y ys ih =>
    simp only [List.cons_append, insertByWeight]
    rw [if_pos (h y (by simp))]
    simp only [List.append_eq]
    rw [ih (fun z hz => h z (by simp [hz]))]

theorem sortFields_buckets (l : List (String × Marshaller)) :
    sortFields l =
      l.filter (fun x => getUnionOrder x.2 == -1)
        ++ l.filter (fun x => getUnionOrder x.2 == 0)
        ++ l.filter (fun x => getUnionOrder x.2 == 1) := by
  induction l with
  | nil => rfl
  | cons x xs ih =>
    rw [show sortFields (x :: xs) = insertByWeight x (sortFields xs) from rfl, ih]
    rcases getUnionOrder_mem x.2 with h | h | h
    · rw [insertByWeight_eq_cons]
      · simp [List.filter_cons, h]
      · intro y hy
        have := getUnionOrder_ge y.2
        omega
    · rw [List.append_assoc, insertByWeight_append, insertByWeight_eq_cons]
      · simp [List.filter_cons, h]
      · intro y hy
        rcases List.mem_append.mp hy with hy | hy <;>
          (simp only [List.mem_filter, beq_iff_eq] at hy; omega)
      · intro y hy
        simp only [List.mem_filter, beq_iff_eq] at hy
        omega
    · rw [insertByWeight_append, insertByWeight_eq_cons]
      · simp [List.filter_cons, h, List.append_assoc]
      · intro y hy
        simp only [List.mem_filter, beq_iff_eq] at hy
        omega
      · intro y hy
        rcases List.mem_append.mp hy with hy | hy <;>
          (simp only [List.mem_filter, beq_iff_eq] at hy; omega)

theorem sortFields_sorted (l : List (String × Marshaller)) :
    (sortFields l).Pairwise (fun a b => getUnionOrder a.2 ≤ getUnionOrder b.2) := by
  rw [sortFields_buckets]
  refine List.pairwise_append.mpr ⟨List.pairwise_append.mpr ⟨?_, ?_, ?_⟩, ?_, ?_⟩
  · exact List.pairwise_of_forall_mem_list (fun a ha b hb => by
      simp only [List.mem_filter, beq_iff_eq] at ha hb; omega)
  · exact List.pairwise_of_forall_mem_list (fun a ha b hb => by
      simp only [List.mem_filter, beq_iff_eq] at ha hb; omega)
  · intro a ha b hb
    simp only [List.mem_filter, beq_iff_eq] at ha hb
    omega
  · exact List.pairwise_of_forall_mem_list (fun a ha b hb => by
      simp only [List.mem_filter, beq_iff_eq] at ha hb; omega)
  · intro a ha b hb
    rcases List.mem_append.mp ha with ha | ha <;>
      (simp only [List.mem_filter, beq_iff_eq] at ha hb; omega)

/-- C5 counterexample: in a schema with fields `kind : literal "foo"` and
`a : literal "kind"`, the weight function classifies `a` (literal payload
`"kind"`) as weight −1 and `kind` (literal payload `"foo"`) as weight 0, so
with both fields invalid the reported error is at `.a`, not at the field
named `kind` — refuting the claim that literal fields named `kind` are
checked first. -/
theorem field_order_kind_value_counterexample :
    marshal (.obj [("kind", .num 2), ("a", .num 1)] .plain)
        (.object [("kind", .literal (.str "foo")), ("a", .literal (.str "kind"))]) "INPUT" []
      = .error (.merr (mkMarshalError "INPUT" [.field "a"]
          "Expected constant value kind, got 1" "literal"))
    ∧ marshal (.num 2) (.literal (.str "foo")) "INPUT" [.field "kind"]
      = .error (.merr (mkMarshalError "INPUT" [.field "kind"]
          "Expected constant value foo, got 2" "literal")) := by
  have hs : sortFields [("kind", Marshaller.literal (.str "foo")), ("a", Marshaller.literal (.str "kind"))]
      = [("a", Marshaller.literal (.str "kind")), ("kind", Marshaller.literal (.str "foo"))] := by
    simp [sortFields, insertByWeight, getUnionOrder]
  have h1 : marshal (jsGetProp (.obj [("kind", .num 2), ("a", .num 1)] .plain) "a")
        (Marshaller.literal (.str "kind")) "INPUT" (([] : List PathStep) ++ [.field "a"])
      = .error (.merr (mkMarshalError "INPUT" [.field "a"]
          "Expected constant value kind, got 1" "literal")) := by
    simp [jsGetProp, jsOwnFields, marshal, primEq, primToString, jsToString]
    try rfl
  refine ⟨?_, ?_⟩
  · apply marshal_object_plain_error
    rw [hs]
    exact marshalFields_cons_error h1
  · simp [marshal, primEq, primToString, jsToString]
    try rfl

/-- C5 (amended): declared fields are validated in the stable-sorted order
given by `getUnionOrder`: fields whose schema is a literal whose literal
value is the string `"kind"` first (weight −1), fields with any other
literal schema next (weight 0), all non-literal fields last (weight 1) —
so a mismatch on any literal-schema field (in particular a discriminator)
is reported before failures of non-literal fields.  The sorted order is the
stable three-bucket order, it is monotone in the weights, and the object
case validates the declared fields in exactly that order before the
excess-key scan. -/
theorem object_field_validation_order
    (flds : List (String × Marshaller)) (vf : List (String × JSValue))
    (name : String) (path : List PathStep) :
    sortFields flds =
      flds.filter (fun x => getUnionOrder x.2 == -1)
        ++ flds.filter (fun x => getUnionOrder x.2 == 0)
        ++ flds.filter (fun x => getUnionOrder x.2 == 1)
    ∧ (sortFields flds).Pairwise (fun a b => getUnionOrder a.2 ≤ getUnionOrder b.2)
    ∧ marshal (.obj vf .plain) (.object flds) name path =
        (match marshalFields (.obj vf .plain) name path (sortFields flds) with
         | .error e => .error e
         | .ok _ =>
           match excessKey flds vf with
           | some k =>
             .error (.merr (mkMarshalError name path ("Found unexpected key: " ++ k) "object"))
           | none => .ok ()) := by
  refine ⟨sortFields_buckets flds, sortFields_sorted flds, ?_⟩
  simp [marshal, jsTypeof, isJSNull, protoSuspect, isJSArray, jsOwnFields]

theorem jsGetProp_append_undef (vf : List (String × JSValue)) (proto : ProtoStatus)
    (k key : String) (hk : objectPrototypeKeys.contains k = false) :
    jsGetProp (.obj (vf ++ [(k, .undef)]) proto) key = jsGetProp (.obj vf proto) key := by
  simp only [jsGetProp, jsOwnFields, List.find?_append]
  cases h : vf.find? (fun p => p.1 == key) with
  | some p => cases proto <;> simp [Option.or]
  | none =>
    by_cases hkey : k = key
    · subst hkey
      have hk2 : k ∉ objectPrototypeKeys := by simpa using hk
      cases proto <;> simp [Option.or, List.find?, protoPropValue, hk2]
    · have hne : (k == key) = false := by simp [hkey]
      cases proto <;> simp [Option.or, List.find?, hne]

theorem marshalFields_lookup_congr (v1 v2 : JSValue) (name : String) (path : List PathStep)
    (h : ∀ key, jsGetProp v1 key = jsGetProp v2 key) (l : List (String × Marshaller)) :
    marshalFields v1 name path l = marshalFields v2 name path l := by
  induction l with
  | nil => simp [marshalFields]
  | cons p rest ih =>
    obtain ⟨key, m⟩ := p
    simp only [marshalFields]
    rw [h key]
    cases marshal (jsGetProp v2 key) m name (path ++ [.field key]) <;> simp [ih]

theorem excessKey_append_declared (flds : List (String × Marshaller)) (k : String)
    (x : JSValue) (h : inFields k flds = true) (vf : List (String × JSValue)) :
    excessKey flds (vf ++ [(k, x)]) = excessKey flds vf := by
  induction vf with
  | nil => simp [excessKey, h]
  | cons p rest ih =>
    obtain ⟨k', v'⟩ := p
    simp only [List.cons_append, excessKey]
    split <;> simp [ih]

/-- C10 (amended): a declared field with an optional schema whose name is
not one of `Object.prototype`'s property names may be entirely absent from
the value: reading such a missing field gives `undefined`, so validating an
object without the field is exactly the same as validating it with the
field explicitly set to `undefined` (marshal cannot distinguish the two),
and the optional schema accepts `undefined`.  (For a field named after an
`Object.prototype` member — `toString`, `valueOf`, ... — a plain object's
read finds the inherited value instead, see
`optional_prototype_field_rejected`.) -/
theorem optional_field_absence
    (flds : List (String × Marshaller)) (vf : List (String × JSValue))
    (proto : ProtoStatus) (name : String) (path : List PathStep) (k : String) (m : Marshaller)
    (hdecl : (k, Marshaller.optional m) ∈ flds)
    (habs : ∀ p ∈ vf, p.1 ≠ k)
    (hk : objectPrototypeKeys.contains k = false) :
    marshal (.obj (vf ++ [(k, JSValue.undef)]) proto) (.object flds) name path
      = marshal (.obj vf proto) (.object flds) name path
    ∧ marshal JSValue.undef (.optional m) name path = .ok () := by
  refine ⟨?_, by simp [marshal]⟩
  have hin : inFields k flds = true := by
    simp only [inFields, Bool.or_eq_true, List.any_eq_true]
    exact Or.inl ⟨(k, .optional m), hdecl, by simp⟩
  have hlook : ∀ key, jsGetProp (.obj (vf ++ [(k, JSValue.undef)]) proto) key
      = jsGetProp (.obj vf proto) key :=
    fun key => jsGetProp_append_undef vf proto k key hk
  by_cases hp : proto = .polluted
  · subst hp
    simp [marshal, jsTypeof, isJSNull, protoSuspect, isJSArray]
  · have hps : (proto == ProtoStatus.polluted) = false := by
      cases proto <;> simp_all
    simp only [marshal, jsTypeof, isJSNull, protoSuspect, isJSArray, jsOwnFields]
    rw [marshalFields_lookup_congr _ _ name path hlook (sortFields flds)]
    rw [excessKey_append_declared flds k JSValue.undef hin vf]

/-- C10 counterexample: for a declared optional field named `toString`, a
plain object without the field is NOT validated like one carrying an
explicit `undefined`: the read `obj["toString"]` finds the inherited
`Object.prototype.toString` function through the prototype chain, so the
inner string schema rejects it with "Expected string, got function", while
the object with the field explicitly `undefined` is accepted — refuting the
claim that absence and explicit `undefined` are indistinguishable for every
declared optional field. -/
theorem optional_prototype_field_rejected :
    marshal (.obj [] .plain) (.object [("toString", .optional .string)]) "INPUT" []
      = .error (.merr (mkMarshalError "INPUT" [.field "toString"]
          "Expected string, got function" "string"))
    ∧ marshal (.obj [("toString", JSValue.undef)] .plain)
        (.object [("toString", .optional .string)]) "INPUT" [] = .ok () := by
  have hs : sortFields [("toString", Marshaller.optional .string)]
      = [("toString", Marshaller.optional .string)] := by
    simp [sortFields, insertByWeight]
  constructor
  · have h1 : marshal (jsGetProp (.obj [] .plain) "toString")
        (Marshaller.optional .string) "INPUT" (([] : List PathStep) ++ [.field "toString"])
        = .error (.merr (mkMarshalError "INPUT" [.field "toString"]
            "Expected string, got function" "string")) := by
      simp [jsGetProp, jsOwnFields, protoPropValue, objectPrototypeKeys, marshal, jsTypeof]
      try rfl
    apply marshal_object_plain_error
    rw [hs]
    exact marshalFields_cons_error h1
  · have h2 : marshal (jsGetProp (.obj [("toString", JSValue.undef)] .plain) "toString")
        (Marshaller.optional .string) "INPUT" (([] : List PathStep) ++ [.field "toString"])
        = .ok () := by
      simp [jsGetProp, jsOwnFields, marshal]
    have hf : marshalFields (.obj [("toString", JSValue.undef)] .plain) "INPUT" []
        (sortFields [("toString", Marshaller.optional .string)]) = .ok () := by
      rw [hs]
      rw [marshalFields_cons_ok h2]
      exact marshalFields_nil_eq _ _ _
    have he : excessKey [("toString", Marshaller.optional .string)]
        [("toString", JSValue.undef)] = none := by
      simp [excessKey, inFields]
    exact marshal_object_plain_ok hf he

theorem StructuredOk_of_ok {r : Except JSException Unit} (h : r = .ok ()) :
    StructuredOk r := Or.inl h

theorem StructuredOk_of_eq_mk {r : Except JSException Unit} {name : String}
    {path : List PathStep} {info rule : String}
    (h : r = .error (.merr (mkMarshalError name path info rule))) :
    StructuredOk r := Or.inr ⟨_, h, mkMarshalError_consistent _ _ _ _⟩

theorem unionDiagnose_structured (obj : JSValue) (name : String) (path : List PathStep)
    (types : List Marshaller) (errs : List MarshalErrorData)
    (h : ∀ e ∈ errs, ErrConsistent e) :
    ∃ e, unionDiagnose obj name path types errs = .error (.merr e) ∧ ErrConsistent e := by
  by_cases hd : discriminatorValues types = []
  · refine ⟨mkMarshalError name path
      ("Unable to match against union. Expected one of ["
        ++ String.intercalate " | " (types.map marshallerKind) ++ "]") "union",
      ?_, mkMarshalError_consistent _ _ _ _⟩
    simp [unionDiagnose, hd]
  · cases hf : errs.find? (rethrowCondition path) with
    | some err =>
      refine ⟨err, ?_, h err (List.mem_of_find?_eq_some hf)⟩
      simp [unionDiagnose, hf, hd]
    | none =>
      by_cases hk : (jsTypeof obj == "object" && !(isJSNull obj) && hasKindProp obj) = true
      · refine ⟨mkMarshalError name path
          ("Unable to match against union."
            ++ " Found \"kind\" discriminator: [" ++ jsToString (jsGetProp obj "kind")
            ++ "], but needed one of ["
            ++ String.intercalate " | " ((discriminatorValues types).map primJoinString)
            ++ "]") "union",
          ?_, mkMarshalError_consistent _ _ _ _⟩
        simp only [unionDiagnose, hf]
        simp [hd, hk]
      · refine ⟨mkMarshalError name path
          ("Unable to find \"kind\" discriminator. Expecting one of ["
            ++ String.intercalate " | " ((discriminatorValues types).map primJoinString)
            ++ "]") "union",
          ?_, mkMarshalError_consistent _ _ _ _⟩
        simp only [Bool.not_eq_true] at hk
        simp only [unionDiagnose, hf]
        simp [hd, hk]

theorem structured_runUnion_nil {obj : JSValue} {name : String} {path : List PathStep} :
    UnionStructured (runUnion obj name path ([] : List Marshaller)) := by
  refine Or.inr ⟨[], ?_, by simp⟩
  simp [runUnion]

theorem structured_union_collected {obj : JSValue} {name : String} {path : List PathStep}
    {types : List Marshaller} {errs : List MarshalErrorData}
    (x : runUnion obj name path types = .collected errs)
    (ih : UnionStructured (runUnion obj name path types)) :
    StructuredOk (marshal obj (.union types) name path) := by
  rw [x] at ih
  rcases ih with h | ⟨errs2, heq, hcons⟩
  · exact absurd h (by simp)
  · injection heq with h2
    subst h2
    obtain ⟨e, hde, hce⟩ := unionDiagnose_structured obj name path types errs hcons
    refine Or.inr ⟨e, ?_, hce⟩
    simp only [marshal, x]
    exact hde

theorem structured_runUnion_cons {obj : JSValue} {name : String} {path : List PathStep}
    {t : Marshaller} {rest : List Marshaller} {e : MarshalErrorData}
    {es : List MarshalErrorData}
    (x1 : marshal obj t name path = .error (.merr e))
    (x2 : runUnion obj name path rest = .collected es)
    (ih1 : StructuredOk (marshal obj t name path))
    (ih2 : UnionStructured (runUnion obj name path rest)) :
    UnionStructured (runUnion obj name path (t :: rest)) := by
  rw [x1] at ih1
  rw [x2] at ih2
  rcases ih1 with h | ⟨e1, he1, hc1⟩
  · exact absurd h (by simp)
  · injection he1 with h'
    injection h' with h''
    subst h''
    rcases ih2 with h2 | ⟨es2, he2, hc2⟩
    · exact absurd h2 (by simp)
    · injection he2 with h2'
      subst h2'
      refine Or.inr ⟨e :: es, ?_, ?_⟩
      · simp only [runUnion, x1, x2]
      · intro e' he'
        rcases List.mem_cons.mp he' with h | h
        · subst h; exact hc1
        · exact hc2 e' h

theorem marshal_structured_mutual :
    (∀ (obj : JSValue) (d : Marshaller) (name : String) (path : List PathStep),
        StructuredOk (marshal obj d name path))
    ∧ (∀ (t : Marshaller) (name : String) (path : List PathStep) (l : List (String × JSValue)),
        StructuredOk (marshalRecordEntries t name path l))
    ∧ (∀ (obj : JSValue) (name : String) (path : List PathStep) (l : List Marshaller),
        UnionStructured (runUnion obj name path l))
    ∧ (∀ (name : String) (path : List PathStep) (i : Nat) (l : List JSValue) (ms : List Marshaller),
        StructuredOk (marshalTuple name path i l ms))
    ∧ (∀ (t : Marshaller) (name : String) (path : List PathStep) (i : Nat) (l : List JSValue),
        StructuredOk (marshalElems t name path i l))
    ∧ (∀ (obj : JSValue) (name : String) (path : List PathStep) (l : List (String × Marshaller)),
        StructuredOk (marshalFields obj name path l)) := by
  apply marshal.mutual_induct
  all_goals intros
  all_goals try
    (apply StructuredOk_of_ok;
      simp [marshal, marshalFields, marshalElems, marshalTuple, marshalRecordEntries,
        runUnion, *];
      done)
  all_goals try
    (apply StructuredOk_of_eq_mk;
      simp [marshal, marshalFields, marshalElems, marshalTuple, marshalRecordEntries,
        runUnion, *];
      (try rfl);
      done)
  all_goals try
    (apply structured_runUnion_nil;
      done)
  all_goals try
    (apply structured_union_collected <;> assumption;
      done)
  all_goals try
    (apply structured_runUnion_cons <;> assumption;
      done)
  all_goals try
    (simp_all [marshal, marshalFields, marshalElems, marshalTuple, marshalRecordEntries,
      runUnion];
      done)
  all_goals try
    (simp_all [marshal, marshalFields, marshalElems, marshalTuple, marshalRecordEntries,
      runUnion, StructuredOk, UnionStructured];
      done)

theorem runUnion_success_of_mem {obj : JSValue} {name : String} {path : List PathStep}
    {types : List Marshaller} (h : ∃ t ∈ types, marshal obj t name path = .ok ()) :
    runUnion obj name path types = .success := by
  induction types with
  | nil => simp at h
  | cons t rest ih =>
    obtain ⟨t', ht', hok⟩ := h
    rcases List.mem_cons.mp ht' with h1 | h1
    · subst h1
      simp [runUnion, hok]
    · cases hh : marshal obj t name path with
      | ok u => simp [runUnion, hh]
      | error e =>
        cases e with
        | merr me => simp [runUnion, hh, ih ⟨t', h1, hok⟩]
        | other s =>
          have hs := marshal_structured_mutual.1 obj t name path
          rw [hh] at hs
          rcases hs with h2 | ⟨e2, h2, _⟩ <;> simp at h2

theorem exists_ok_of_runUnion_success {obj : JSValue} {name : String} {path : List PathStep}
    {types : List Marshaller} (h : runUnion obj name path types = .success) :
    ∃ t ∈ types, marshal obj t name path = .ok () := by
  induction types with
  | nil => simp [runUnion] at h
  | cons t rest ih =>
    cases hh : marshal obj t name path with
    | ok u =>
      cases u
      exact ⟨t, by simp, hh⟩
    | error e =>
      cases e with
      | merr me =>
        simp only [runUnion, hh] at h
        cases hr : runUnion obj name path rest with
        | success =>
          obtain ⟨t', ht', hok⟩ := ih hr
          exact ⟨t', by simp [ht'], hok⟩
        | collected es => rw [hr] at h; simp at h
        | aborted s => rw [hr] at h; simp at h
      | other s =>
        simp only [runUnion, hh] at h
        simp at h

theorem runUnion_collected_of_forallTwo {obj : JSValue} {name : String} {path : List PathStep}
    {types : List Marshaller} {errs : List MarshalErrorData}
    (h : List.Forall₂ (fun t e => marshal obj t name path = .error (.merr e)) types errs) :
    runUnion obj name path types = .collected errs := by
  induction h with
  | nil => simp [runUnion]
  | cons h1 h2 ih => simp [runUnion, h1, ih]

/-- C3: a union validates successfully exactly when some alternative does
(alternatives tried in declared order against the same value and path);
every alternative's failure is a structured `MarshalError` (so the embedded
program never aborts a union with a non-structured exception); and when
every alternative fails, the collected failures — in declared order — are
handed to the disambiguation heuristic, which decides the raised error. -/
theorem union_alternative_semantics
    (v : JSValue) (types : List Marshaller) (name : String) (path : List PathStep) :
    (marshal v (.union types) name path = .ok ()
      ↔ ∃ t ∈ types, marshal v t name path = .ok ())
    ∧ (∀ t ∈ types, marshal v t name path = .ok ()
        ∨ ∃ e, marshal v t name path = .error (.merr e))
    ∧ (∀ errs, List.Forall₂ (fun t e => marshal v t name path = .error (.merr e)) types errs →
        marshal v (.union types) name path = unionDiagnose v name path types errs) := by
  refine ⟨⟨?_, ?_⟩, ?_, ?_⟩
  · intro h
    cases hr : runUnion v name path types with
    | success => exact exists_ok_of_runUnion_success hr
    | collected errs =>
      have h3 := marshal_structured_mutual.2.2.1 v name path types
      rw [hr] at h3
      rcases h3 with h3 | ⟨es, h3, hcons⟩
      · simp at h3
      · injection h3 with h3'
        subst h3'
        obtain ⟨e, hde, _⟩ := unionDiagnose_structured v name path types errs hcons
        simp only [marshal, hr] at h
        rw [hde] at h
        simp at h
    | aborted s =>
      have h3 := marshal_structured_mutual.2.2.1 v name path types
      rw [hr] at h3
      rcases h3 with h3 | ⟨es, h3, _⟩ <;> simp at h3
  · intro h
    have hs := runUnion_success_of_mem h
    simp [marshal, hs]
  · intro t ht
    have hs := marshal_structured_mutual.1 v t name path
    rcases hs with h | ⟨e, he, _⟩
    · exact Or.inl h
    · exact Or.inr ⟨e, he⟩
  · intro errs hf
    have hr := runUnion_collected_of_forallTwo hf
    simp [marshal, hr]

theorem union_alternative_semantics_witness :
    (marshal (.str "q") .boolean "INPUT" [] = .ok ()
      ∨ ∃ e, marshal (.str "q") .boolean "INPUT" [] = .error (.merr e))
    ∧ marshal (.str "q") (.union [.boolean, .number]) "INPUT" []
        = unionDiagnose (.str "q") "INPUT" [] [.boolean, .number]
            [mkMarshalError "INPUT" [] "Expected boolean, got string" "boolean",
             mkMarshalError "INPUT" [] "Expected number, got string" "number"] := by
  constructor
  · exact (union_alternative_semantics (.str "q") [.boolean, .number] "INPUT" []).2.1
      .boolean (by simp)
  · apply (union_alternative_semantics (.str "q") [.boolean, .number] "INPUT" []).2.2
    refine List.Forall₂.cons ?_ (List.Forall₂.cons ?_ List.Forall₂.nil) <;>
      simp [marshal, jsTypeof]

/-- C1 (amended): for a discriminated union (at least one object alternative
declares a literal `kind` field) on which every alternative fails, the union
re-raises the first collected failure whose rule is not `"literal"` or whose
path length is not exactly one step past the union's own path (note: also
failures at the union's own depth are re-raised, not only strictly deeper
ones); only when every collected failure is a literal mismatch exactly one
step deep does it raise the discriminator-specific message — naming the
observed `kind` value against the valid discriminator values if the value
has a `kind` property, and the "Unable to find" message otherwise. -/
theorem union_discriminated_heuristic
    (v : JSValue) (types : List Marshaller) (name : String) (path : List PathStep)
    (errs : List MarshalErrorData)
    (hf : List.Forall₂ (fun t e => marshal v t name path = .error (.merr e)) types errs)
    (hd : discriminatorValues types ≠ []) :
    marshal v (.union types) name path =
      (match errs.find? (rethrowCondition path) with
       | some err => .error (.merr err)
       | none =>
         if jsTypeof v == "object" && !(isJSNull v) && hasKindProp v then
           .error (.merr (mkMarshalError name path
             ("Unable to match against union."
               ++ " Found \"kind\" discriminator: [" ++ jsToString (jsGetProp v "kind")
               ++ "], but needed one of ["
               ++ String.intercalate " | " ((discriminatorValues types).map primJoinString)
               ++ "]") "union"))
         else
           .error (.merr (mkMarshalError name path
             ("Unable to find \"kind\" discriminator. Expecting one of ["
               ++ String.intercalate " | " ((discriminatorValues types).map primJoinString)
               ++ "]") "union"))) := by
  have hr := runUnion_collected_of_forallTwo hf
  simp only [marshal, hr]
  simp only [unionDiagnose]
  simp [bne, List.length_eq_zero, hd]

theorem union_discriminated_heuristic_witness :
    marshal (.obj [("kind", .str "bar")] .plain)
        (.union [.object [("kind", .literal (.str "foo"))]]) "INPUT" []
      = .error (.merr (mkMarshalError "INPUT" []
          "Unable to match against union. Found \"kind\" discriminator: [bar], but needed one of [foo]"
          "union")) := by
  have h := union_discriminated_heuristic (.obj [("kind", .str "bar")] .plain)
    [.object [("kind", .literal (.str "foo"))]] "INPUT" []
    [mkMarshalError "INPUT" [.field "kind"] "Expected constant value foo, got bar" "literal"]
    (List.Forall₂.cons obj_kind_bar_fails List.Forall₂.nil)
    (by simp [discriminatorValues])
  rw [h]
  simp [rethrowCondition, mkMarshalError, pathStringify, List.find?, jsTypeof, isJSNull,
    hasKindProp, jsOwnFields, jsGetProp, jsToString, discriminatorValues, primJoinString,
    primToString]
  constructor <;> rfl

/-- C1 counterexample: in the union
`[object {kind: literal "foo"}, literal "x"]` (a discriminated union) the
value `{kind: "bar"}` makes every alternative fail; the literal alternative
fails with rule `"literal"` at the union's own path (length 0, not strictly
deeper than one step), yet the union re-raises that failure verbatim instead
of the discriminator message — refuting the claim that a failure is
re-raised exactly when its rule is not `"literal"` or its path is strictly
deeper than one step. -/
theorem union_rethrow_at_same_depth :
    marshal (.obj [("kind", .str "bar")] .plain)
        (.union [.object [("kind", .literal (.str "foo"))], .literal (.str "x")]) "INPUT" []
      = .error (.merr (mkMarshalError "INPUT" []
          "Expected constant value x, got [object Object]" "literal"))
    ∧ marshal (.obj [("kind", .str "bar")] .plain) (.literal (.str "x")) "INPUT" []
      = .error (.merr (mkMarshalError "INPUT" []
          "Expected constant value x, got [object Object]" "literal"))
    ∧ (mkMarshalError "INPUT" []
        "Expected constant value x, got [object Object]" "literal").rule = "literal"
    ∧ (mkMarshalError "INPUT" []
        "Expected constant value x, got [object Object]" "literal").path.length = 0 := by
  have h2 : marshal (.obj [("kind", .str "bar")] .plain) (.literal (.str "x")) "INPUT" []
      = .error (.merr (mkMarshalError "INPUT" []
          "Expected constant value x, got [object Object]" "literal")) := by
    simp [marshal, primEq, primToString, jsToString]
    try rfl
  have hru : runUnion (.obj [("kind", .str "bar")] .plain) "INPUT" []
      [.object [("kind", .literal (.str "foo"))], .literal (.str "x")]
      = .collected
          [mkMarshalError "INPUT" [.field "kind"] "Expected constant value foo, got bar" "literal",
           mkMarshalError "INPUT" [] "Expected constant value x, got [object Object]" "literal"] :=
    runUnion_cons_merr obj_kind_bar_fails (runUnion_cons_merr h2 (runUnion_nil_eq _ _ _))
  refine ⟨?_, h2, rfl, rfl⟩
  rw [marshal_union_collected_eq hru]
  simp [unionDiagnose, discriminatorValues, rethrowCondition, List.find?,
    mkMarshalError, pathStringify]
  try rfl

/-- C4 (amended): for a custom schema the value is first validated against
the inner schema — an inner failure propagates as-is with the inner
schema's rule tag, for any validation function; only if that passes is the
function invoked.  If the function returns any value other than `undefined`
the call fails at the current path with rule `"custom"` and info equal to
the message of the internally raised error,
`"[At <renderedPath>]: Custom validation function unexpectedly returned a value"`
(the internal failure is caught by the surrounding try/catch and re-wrapped,
so the info carries the path prefix), regardless of what the return value
was; this is distinct from the throwing case, where the thrown error's
message becomes the info with rule `"custom"`. -/
theorem custom_case_semantics
    (t : Marshaller) (fn : JSValue → CustomResult) (v : JSValue)
    (name : String) (path : List PathStep) :
    (∀ e, marshal v t name path = .error e →
        marshal v (.custom t fn) name path = .error e)
    ∧ (marshal v t name path = .ok () →
        ((∀ r, fn v = .ret r → r ≠ .undef →
            marshal v (.custom t fn) name path
              = .error (.merr (mkMarshalError name path
                  ("[At " ++ pathStringify name path
                    ++ "]: Custom validation function unexpectedly returned a value")
                  "custom")))
          ∧ (fn v = .ret .undef → marshal v (.custom t fn) name path = .ok ())
          ∧ (∀ msg, fn v = .throws msg →
              marshal v (.custom t fn) name path
                = .error (.merr (mkMarshalError name path msg "custom"))))) := by
  constructor
  · intro e he
    simp [marshal, he]
  · intro hok
    refine ⟨?_, ?_, ?_⟩
    · intro r hr hne
      have hu : isJSUndef r = false := by cases r <;> simp_all [isJSUndef]
      simp [marshal, hok, hr, hu, mkMarshalError, String.append_assoc]
    · intro hr
      simp [marshal, hok, hr, isJSUndef]
    · intro msg hm
      simp [marshal, hok, hm]

theorem custom_case_semantics_witness :
    marshal (.str "a") (.custom .string (fun _ => .ret (.num 7))) "INPUT" []
      = .error (.merr (mkMarshalError "INPUT" []
          ("[At " ++ pathStringify "INPUT" []
            ++ "]: Custom validation function unexpectedly returned a value") "custom")) :=
  ((custom_case_semantics .string (fun _ => .ret (.num 7)) (.str "a") "INPUT" []).2
    (by simp [marshal, jsTypeof])).1 (.num 7) rfl (by simp)

theorem custom_return_wrapped_info :
    marshal (.str "x") (.custom .string (fun _ => .ret (.num 1))) "INPUT" []
      = .error (.merr (mkMarshalError "INPUT" []
          "[At INPUT]: Custom validation function unexpectedly returned a value" "custom"))
    ∧ (mkMarshalError "INPUT" []
        "[At INPUT]: Custom validation function unexpectedly returned a value" "custom").info
      = "[At INPUT]: Custom validation function unexpectedly returned a value"
    ∧ ((mkMarshalError "INPUT" []
        "[At INPUT]: Custom validation function unexpectedly returned a value" "custom").info
        == "Custom validation function unexpectedly returned a value") = false := by
  refine ⟨?_, rfl, by rfl⟩
  simp [marshal, jsTypeof, isJSUndef, mkMarshalError, pathStringify]

/-- C7: every failing validation call raises an error carrying the stable
fields name, path, info and rule, whose message is exactly
`[At <renderedPath>]: <info>`, where the rendered path is the root name
followed by each path step rendered as `.field` for a string step or
`[index]` for a numeric step, concatenated in order. -/
theorem error_message_format
    (v : JSValue) (d : Marshaller) (name : String) (path : List PathStep)
    (e : MarshalErrorData)
    (h : marshal v d name path = .error (.merr e)) :
    e.message = "[At " ++ pathStringify e.name e.path ++ "]: " ++ e.info
    ∧ pathStringify e.name e.path = e.name ++ renderPathSteps e.path := by
  have hs := marshal_structured_mutual.1 v d name path
  rw [h] at hs
  rcases hs with h2 | ⟨e2, he2, hc2⟩
  · simp at h2
  · injection he2 with h'
    injection h' with h''
    subst h''
    exact ⟨hc2, pathStringify_eq_append _ _⟩

theorem error_message_format_witness :
    (mkMarshalError "INPUT" [] "Expected boolean, got number" "boolean").message
      = "[At "
        ++ pathStringify (mkMarshalError "INPUT" [] "Expected boolean, got number" "boolean").name
            (mkMarshalError "INPUT" [] "Expected boolean, got number" "boolean").path
        ++ "]: " ++ (mkMarshalError "INPUT" [] "Expected boolean, got number" "boolean").info
    ∧ pathStringify (mkMarshalError "INPUT" [] "Expected boolean, got number" "boolean").name
          (mkMarshalError "INPUT" [] "Expected boolean, got number" "boolean").path
      = (mkMarshalError "INPUT" [] "Expected boolean, got number" "boolean").name
        ++ renderPathSteps (mkMarshalError "INPUT" [] "Expected boolean, got number" "boolean").path :=
  error_message_format (.num 1) .boolean "INPUT" [] _ (by simp [marshal, jsTypeof])

theorem optional_field_absence_witness :
    marshal (.obj ([] ++ [("x", JSValue.undef)]) .plain)
        (.object [("x", .optional .number)]) "INPUT" []
      = marshal (.obj [] .plain) (.object [("x", .optional .number)]) "INPUT" []
    ∧ marshal JSValue.undef (.optional .number) "INPUT" [] = .ok () :=
  optional_field_absence [("x", .optional .number)] [] .plain "INPUT" [] "x" .number
    (by simp) (by simp) (by rfl)
